import Mathlib

/-!
Verification of the 2+1D pouch-cell simulation pipeline
(`results/2019_xx_2plus1D_pouch/2plus1D/pouch_cell_model.py`).

The driver script configures the pipeline (parameters, geometry, mesh,
discretisation, solve, processed variables) and plots snapshots.  The
pipeline stages themselves live in the `pybamm` package; where that code
is not part of the snapshot, the stage is modelled from the specification
(each such definition is marked `Modelled from the spec:`).  Exact
rational arithmetic stands in for floating point throughout.
-/

namespace PouchCell

/-- Embedding of `numpy.linspace(a, b, n)` (endpoint included): the list
`a + (b - a) * i / (n - 1)` for `i = 0, …, n-1`. -/
def linspace (a b : ℚ) (n : ℕ) : List ℚ :=
  (List.range n).map (fun (i : ℕ) => a + (b - a) * (i : ℚ) / ((n : ℚ) - 1))

/-! ## Stage 4.5: DAE solver (`pybamm.CasadiSolver`) -/

/-- Error taxonomy of the numerical solver layer (spec §7): divergence of the
implicit step, or non-positive requested tolerances. -/
inductive SolverError where
  | divergence
  | tolerance
deriving DecidableEq

/-- Solution artifact (spec §3): ordered time samples paired with the full
state vector at each sample. -/
structure Solution where
  t : List ℚ
  y : List (List ℚ)
deriving DecidableEq

/-- Modelled from the spec: the Discretised Model produced by stage 4.4
(`pybamm.Discretisation.process_model` is not in the snapshot).  Only what the
claims need is kept: the fixed state-vector length and the trajectory the
implicit scheme converges to at each requested output time. -/
structure DiscretisedModel where
  stateSize : ℕ
  trajectory : ℚ → List ℚ

/-- Modelled from the spec: `pybamm.CasadiSolver(...).solve(model, t_eval)`
(stage 4.5; the solver code is not in the snapshot).  Non-positive tolerances
fail with `ToleranceError`; otherwise "fast" mode evaluates at exactly the
requested output times and the returned Solution covers exactly the
requested `t_eval` grid. -/
def solve (m : DiscretisedModel) (atol rtol root_tol : ℚ) (t_eval : List ℚ) :
    Except SolverError Solution :=
  if atol ≤ 0 ∨ rtol ≤ 0 ∨ root_tol ≤ 0 then .error .tolerance
  else .ok { t := t_eval, y := t_eval.map m.trajectory }

/-! ## Stage 4.6: Field Reconstructor (`pybamm.ProcessedVariable`) -/

/-- Linear blend `a + (b - a) * θ` between two values. -/
def lerp (a b θ : ℚ) : ℚ := a + (b - a) * θ

/-- Modelled from the spec: the piecewise-linear interpolation kernel of the
Field Reconstructor (stage 4.6; `pybamm.ProcessedVariable` is not in the
snapshot).  `ps` pairs node coordinates with stored values; the query `q` is
located in the first segment whose right node is at or past `q` and the two
segment values are blended linearly (`blend` is the scalar blend for spatial
axes and the entrywise grid blend for the time axis). -/
def interpSegs {α : Type} (blend : α → α → ℚ → α) (d : α) :
    List (ℚ × α) → ℚ → α
  | [], _ => d
  | [(_, v)], _ => v
  | (x0, v0) :: (x1, v1) :: rest, q =>
    if q ≤ x1 then blend v0 v1 ((q - x0) / (x1 - x0))
    else interpSegs blend d ((x1, v1) :: rest) q

/-- Scalar piecewise-linear interpolation on node/value pairs (the 1D linear
interpolation of stage 4.6). -/
def interp1 (ps : List (ℚ × ℚ)) (q : ℚ) : ℚ := interpSegs lerp 0 ps q

/-- One snapshot of the planar field: rows indexed by `z`, entries within a
row indexed by `y`. -/
abbrev Grid : Type := List (List ℚ)

/-- Entrywise linear blend of two equally-shaped grids (the time-axis blend
of stage 4.6 applied to whole state snapshots). -/
def gridLerp (g0 g1 : Grid) (θ : ℚ) : Grid :=
  List.zipWith (fun r0 r1 => List.zipWith (fun a b => lerp a b θ) r0 r1) g0 g1

/-- Shape of a grid: `m` rows of `n` entries each. -/
abbrev Shaped (m n : ℕ) (g : Grid) : Prop :=
  g.length = m ∧ ∀ r ∈ g, r.length = n

/-- Lower end of a coordinate array (first node). -/
def lbound (xs : List ℚ) : ℚ := xs.headD 0

/-- Upper end of a coordinate array (last node; the source reads it as
`y_sol[-1]` / `z_sol[-1]`). -/
def ubound (xs : List ℚ) : ℚ := xs.getLast?.getD 0

/-- Modelled from the spec: a `pybamm.ProcessedVariable` bound to the
Solution and Mesh (stage 4.6; the class itself is not in the snapshot).
`y_sol` and `z_sol` are the planar mesh node coordinates the source reads
(`phi_s_cp.y_sol`, `phi_s_cp.z_sol`); `t_sol` is `solution.t`; `entries`
holds, per stored time sample, the variable's values on the planar grid
(rows indexed by `z`, entries within a row indexed by `y`). -/
structure ProcessedVariable where
  y_sol : List ℚ
  z_sol : List ℚ
  t_sol : List ℚ
  entries : List Grid
deriving DecidableEq

/-- Bilinear interpolation over the planar grid: interpolate each row along
`y`, then interpolate the per-row results along `z`. -/
def bilinear (ys zs : List ℚ) (g : Grid) (y z : ℚ) : ℚ :=
  interp1 (zs.zip (g.map (fun row => interp1 (ys.zip row) y))) z

/-- Step 1 of evaluation (spec 4.6): linear interpolation between the stored
grids at the bracketing time samples. -/
def ProcessedVariable.timeInterp (pv : ProcessedVariable) (t : ℚ) : Grid :=
  interpSegs gridLerp [] (pv.t_sol.zip pv.entries) t

/-- Spatio-temporal evaluation without the domain check: time interpolation
followed by bilinear spatial interpolation. -/
def ProcessedVariable.evalAt (pv : ProcessedVariable) (y z t : ℚ) : ℚ :=
  bilinear pv.y_sol pv.z_sol (pv.timeInterp t) y z

/-- Query-time error (spec §7): recoverable out-of-domain query. -/
inductive OutOfDomainError where
  | mk
deriving DecidableEq

/-- Modelled from the spec: calling a Processed Variable at `(y, z, t)`.  A
spatial coordinate strictly outside the closed mesh extent fails with
`OutOfDomainError`; otherwise evaluation interpolates in time and then
across the planar mesh. -/
def ProcessedVariable.eval (pv : ProcessedVariable) (y z t : ℚ) :
    Except OutOfDomainError ℚ :=
  if y < lbound pv.y_sol ∨ ubound pv.y_sol < y
      ∨ z < lbound pv.z_sol ∨ ubound pv.z_sol < z then
    .error .mk
  else
    .ok (pv.evalAt y z t)

/-- Concrete Processed Variable used by witnesses: a 2-node `y` axis, a
3-node `z` axis, two stored time samples, and matching 3×2 value grids. -/
def pvA : ProcessedVariable :=
  ⟨[0, 1], [0, 1, 2], [0, 10],
    [[[1, 2], [3, 4], [5, 6]], [[7, 8], [9, 10], [11, 12]]]⟩

/-! ## Boundedness of interpolation (no spurious values at query time) -/

/-- All grid entries bounded in magnitude by `B`. -/
abbrev GridBounded (B : ℚ) (g : Grid) : Prop := ∀ r ∈ g, ∀ v ∈ r, |v| ≤ B

/-- Vectorized grid query (the script's `I(y=y_plot, z=z_plot, t=...)`):
rows indexed by the `y` samples, entries within a row by the `z` samples. -/
def ProcessedVariable.evalGrid (pv : ProcessedVariable) (ys zs : List ℚ) (t : ℚ) :
    List (List (Except OutOfDomainError ℚ)) :=
  ys.map (fun y => zs.map (fun z => pv.eval y z t))

/-! ## Snapshot-time selection in `plot` (script lines 94–102) -/

/-- Embedding of `(np.abs(solution.t - t)).argmin()`: index and value of the
first minimal absolute deviation, or `none` on an empty list. -/
def argminAbsAux (t : ℚ) : List ℚ → Option (ℕ × ℚ)
  | [] => none
  | s :: rest =>
    match argminAbsAux t rest with
    | none => some (0, |s - t|)
    | some (j, v) => if |s - t| ≤ v then some (0, |s - t|) else some (j + 1, v)

/-- Embedding of `ind = (np.abs(solution.t - t)).argmin()` (script line 95). -/
def argminAbs (ts : List ℚ) (t : ℚ) : ℕ :=
  ((argminAbsAux t ts).map Prod.fst).getD 0

/-- Embedding of the snapshot time `solution.t[ind]` that `plot` passes to
every Processed Variable (script lines 95–158). -/
def plotSnapshotTime (sol : Solution) (t : ℚ) : ℚ :=
  sol.t.getD (argminAbs sol.t t) 0

/-! ## Stage 4.3: Mesh generation (`pybamm.Mesh`) -/

/-- Dimensionality tag of a spatial variable's domain. -/
inductive Dim where
  | oneDim
  | twoDim
deriving DecidableEq

/-- Submesh families the script's defaults use: uniform 1D submeshes for the
through-thickness and particle variables, the 2D scikit-fem family for the
current-collector plane. -/
inductive SubmeshKind where
  | uniform1D
  | scikit2D
deriving DecidableEq

/-- Minimum admissible node count (spec 4.3): 2 for 1D variables, 3 for the
2D planar mesh. -/
def minPts : Dim → ℕ
  | .oneDim => 2
  | .twoDim => 3

/-- Whether a submesh family is known for a domain dimensionality. -/
def submeshOk : SubmeshKind → Dim → Bool
  | .uniform1D, .oneDim => true
  | .scikit2D, .twoDim => true
  | _, _ => false

/-- Mesh-layer error (spec §7): resolution below the stage minimum, or a
submesh family unknown for the domain's dimensionality. -/
inductive MeshError where
  | resolutionTooLow
  | unknownSubmeshType
deriving DecidableEq

/-- Request for one spatial variable: domain dimensionality, processed
numeric extent, submesh family, and node count from `var_pts`. -/
structure SpatialVarSpec where
  dim : Dim
  extent : ℚ
  submesh : SubmeshKind
  pts : ℕ
deriving DecidableEq

/-- Modelled from the spec: `pybamm.Mesh(geometry, submesh_types, var_pts)`
(stage 4.3; the class is not in the snapshot).  Every requested submesh
family is checked against its domain dimensionality, every node count
against the stage minimum; on success each variable gets a monotone
coordinate array spanning its extent. -/
def meshBuild (vars : List SpatialVarSpec) : Except MeshError (List (List ℚ)) :=
  if vars.all (fun v => submeshOk v.submesh v.dim) then
    if vars.all (fun v => decide (minPts v.dim ≤ v.pts)) then
      .ok (vars.map (fun v => linspace 0 v.extent v.pts))
    else .error .resolutionTooLow
  else .error .unknownSubmeshType

/-- The script's `var_pts` (lines 28–36): `x_n`, `x_s`, `x_p` at 5 points,
`r_n` and `r_p` at 10, `y` at 15, `z` at 10, with the default submesh
families on the nondimensional unit extents. -/
def scriptVarPts : List SpatialVarSpec :=
  [⟨.oneDim, 1, .uniform1D, 5⟩,
   ⟨.oneDim, 1, .uniform1D, 5⟩,
   ⟨.oneDim, 1, .uniform1D, 5⟩,
   ⟨.oneDim, 1, .uniform1D, 10⟩,
   ⟨.oneDim, 1, .uniform1D, 10⟩,
   ⟨.twoDim, 1, .scikit2D, 15⟩,
   ⟨.twoDim, 1, .scikit2D, 10⟩]

/-! ## Post-solve phase: shared read-only Solution (spec §5) -/

/-- Operations the script performs on the published Solution after the
solve: binding a Processed Variable (lines 53–76) and evaluating a bound one
(lines 102, 117, 138, 158). -/
inductive PostSolveOp where
  | bindVar (name : String)
  | evalVar (idx : ℕ) (y z t : ℚ)

/-- State of the post-solve phase: the published Solution, the planar mesh
node coordinates, and the Processed Variables bound so far. -/
structure PostSolveState where
  solution : Solution
  meshY : List ℚ
  meshZ : List ℚ
  vars : List ProcessedVariable

/-- Modelled from the spec: `pybamm.ProcessedVariable(expr, solution.t,
solution.y, mesh=mesh)` — binding reads the Solution time axis and states
and the mesh coordinates, and appends the new variable; the Solution is
only read. -/
def bindVariable (st : PostSolveState) : PostSolveState :=
  { st with vars := st.vars ++
      [⟨st.meshY, st.meshZ, st.solution.t, st.solution.y.map (fun v => [v])⟩] }

/-- Modelled from the spec: evaluating a bound Processed Variable returns
its value and leaves the whole state untouched (read-only access to the
shared Solution). -/
def evalVariable (st : PostSolveState) (i : ℕ) (y z t : ℚ) :
    Option (Except OutOfDomainError ℚ) × PostSolveState :=
  ((st.vars[i]?).map (fun pv => pv.eval y z t), st)

/-- Interpreter for the post-solve phase. -/
def runPost (st : PostSolveState) : List PostSolveOp → PostSolveState
  | [] => st
  | .bindVar _ :: ops => runPost (bindVariable st) ops
  | .evalVar i y z t :: ops => runPost (evalVariable st i y z t).2 ops

/-! ## Stage 4.1: Parameter Store (`param.evaluate`) -/

/-- Expression tree over named parameters (spec §9:
`Literal | NamedRef | BinaryOp`). -/
inductive PExpr where
  | lit (q : ℚ)
  | ref (n : String)
  | binOp (op : ℚ → ℚ → ℚ) (a b : PExpr)

/-- Parameter-layer errors (spec §7): a referenced name missing from the
store, or resolution recursing into a name already being resolved. -/
inductive ParamError where
  | unresolved (n : String)
  | cyclic (n : String)
deriving DecidableEq

/-- Association lookup in the store. -/
def lookupName : List (String × PExpr) → String → Option PExpr
  | [], _ => none
  | (m, e) :: rest, n => if m = n then some e else lookupName rest n

def lookupName_mem_keys :
    ∀ (store : List (String × PExpr)) (n : String) (e : PExpr),
      lookupName store n = some e → n ∈ store.map Prod.fst
  | [], _, _, h => by cases h
  | (m, e2) :: rest, n, e, h => by
    rw [lookupName] at h
    by_cases hm : m = n
    · rw [List.map_cons, hm]
      exact List.mem_cons_self n _
    · rw [if_neg hm] at h
      exact List.mem_cons_of_mem m (lookupName_mem_keys rest n e h)

def length_filter_mono {α : Type} (p q : α → Bool)
    (himp : ∀ x, p x = true → q x = true) :
    ∀ (l : List α), (l.filter p).length ≤ (l.filter q).length
  | [] => le_refl 0
  | a :: l => by
    by_cases hpa : p a = true
    · rw [List.filter_cons_of_pos hpa, List.filter_cons_of_pos (himp a hpa)]
      simpa using length_filter_mono p q himp l
    · rw [List.filter_cons_of_neg (by simp [hpa])]
      by_cases hqa : q a = true
      · rw [List.filter_cons_of_pos hqa]
        exact le_trans (length_filter_mono p q himp l) (by simp)
      · rw [List.filter_cons_of_neg (by simp [hqa])]
        exact length_filter_mono p q himp l

def length_filter_strict {α : Type} (p q : α → Bool)
    (himp : ∀ x, p x = true → q x = true) :
    ∀ (l : List α) (x : α), x ∈ l → q x = true → p x = false →
      (l.filter p).length < (l.filter q).length
  | [], x, hx, _, _ => absurd hx (List.not_mem_nil x)
  | a :: l, x, hx, hqx, hpx => by
    rcases List.mem_cons.mp hx with rfl | hx2
    · rw [List.filter_cons_of_neg (by simp [hpx]), List.filter_cons_of_pos hqx]
      exact Nat.lt_succ_of_le (length_filter_mono p q himp l)
    · by_cases hpa : p a = true
      · rw [List.filter_cons_of_pos hpa, List.filter_cons_of_pos (himp a hpa)]
        simpa using length_filter_strict p q himp l x hx2 hqx hpx
      · rw [List.filter_cons_of_neg (by simp [hpa])]
        by_cases hqa : q a = true
        · rw [List.filter_cons_of_pos hqa]
          exact Nat.lt_succ_of_lt (length_filter_strict p q himp l x hx2 hqx hpx)
        · rw [List.filter_cons_of_neg (by simp [hqa])]
          exact length_filter_strict p q himp l x hx2 hqx hpx

/-- Modelled from the spec: recursive resolution of an expression against
the Parameter Store (stage 4.1; the `ParameterValues` class behind
`param.evaluate` at script lines 44 and 82–84 is not in the snapshot).
`stack` holds the names currently being resolved: a reference to a name on
the stack fails with `CyclicParameterError`, a name missing from the store
fails with `UnresolvedParameterError`, and every other expression resolves
to a numeric scalar. -/
def evalExpr (store : List (String × PExpr)) :
    List String → PExpr → Except ParamError ℚ
  | _, .lit q => .ok q
  | stack, .binOp op a b =>
    match evalExpr store stack a, evalExpr store stack b with
    | .ok va, .ok vb => .ok (op va vb)
    | .error e, _ => .error e
    | .ok _, .error e => .error e
  | stack, .ref n =>
    if hn : n ∈ stack then .error (.cyclic n)
    else
      match hl : lookupName store n with
      | none => .error (.unresolved n)
      | some e => evalExpr store (n :: stack) e
termination_by stack e =>
  (((store.map Prod.fst).filter (fun m => decide (m ∉ stack))).length, sizeOf e)
decreasing_by
  · apply Prod.Lex.right
    simp
    omega
  · apply Prod.Lex.right
    simp
  · apply Prod.Lex.left
    apply length_filter_strict _ _ ?imp _ n (lookupName_mem_keys store n e hl)
      (decide_eq_true hn) (decide_eq_false (not_not_intro (List.mem_cons_self n stack)))
    intro x hx
    rw [decide_eq_true_eq] at hx ⊢
    exact fun hmem => hx (List.mem_cons_of_mem n hmem)

/-- Modelled from the spec: `param.evaluate(expr)` — resolution starting
with an empty in-progress stack. -/
def evaluate (store : List (String × PExpr)) (e : PExpr) : Except ParamError ℚ :=
  evalExpr store [] e

/-- Modelled from the spec: "some referenced name is missing from the
store" — the recursive substitution of spec 4.1, started with `stack` names
in progress, reaches a reference whose name has no store entry. -/
inductive MissingRef (store : List (String × PExpr)) :
    List String → PExpr → Prop where
  | refNone (stack : List String) (n : String) :
      n ∉ stack → lookupName store n = none →
      MissingRef store stack (.ref n)
  | refStep (stack : List String) (n : String) (body : PExpr) :
      n ∉ stack → lookupName store n = some body →
      MissingRef store (n :: stack) body →
      MissingRef store stack (.ref n)
  | binLeft (stack : List String) (op : ℚ → ℚ → ℚ) (a b : PExpr) :
      MissingRef store stack a → MissingRef store stack (.binOp op a b)
  | binRight (stack : List String) (op : ℚ → ℚ → ℚ) (a b : PExpr) :
      MissingRef store stack b → MissingRef store stack (.binOp op a b)

/-- Modelled from the spec: "resolution recurses into a name already being
resolved" — the recursive substitution of spec 4.1, started with `stack`
names in progress, reaches a reference to a name that is in progress. -/
inductive CyclicRef (store : List (String × PExpr)) :
    List String → PExpr → Prop where
  | refStack (stack : List String) (n : String) :
      n ∈ stack → CyclicRef store stack (.ref n)
  | refStep (stack : List String) (n : String) (body : PExpr) :
      n ∉ stack → lookupName store n = some body →
      CyclicRef store (n :: stack) body →
      CyclicRef store stack (.ref n)
  | binLeft (stack : List String) (op : ℚ → ℚ → ℚ) (a b : PExpr) :
      CyclicRef store stack a → CyclicRef store stack (.binOp op a b)
  | binRight (stack : List String) (op : ℚ → ℚ → ℚ) (a b : PExpr) :
      CyclicRef store stack b → CyclicRef store stack (.binOp op a b)

/-! ## Theorems -/

theorem linspace_length (a b : ℚ) (n : ℕ) : (linspace a b n).length = n := by
  simp [linspace]

theorem linspace_head (a b : ℚ) (n : ℕ) (d : ℚ) (hn : 1 ≤ n) :
    (linspace a b n).headD d = a := by
  cases n with
  | zero => omega
  | succ k => simp [linspace, List.range_succ_eq_map]

theorem linspace_chain (a b : ℚ) (n : ℕ) (hab : a < b) (hn : 2 ≤ n) :
    List.Chain' (· < ·) (linspace a b n) := by
  cases n with
  | zero => omega
  | succ k =>
    rw [linspace, List.chain'_map, List.chain'_range_succ]
    intro m hm
    have hk : (1 : ℚ) ≤ (k : ℚ) := by
      have h1 : 1 ≤ k := by omega
      exact_mod_cast h1
    have hden : (0 : ℚ) < ((k + 1 : ℕ) : ℚ) - 1 := by push_cast; linarith
    have hba : (0 : ℚ) < b - a := by linarith
    have hmm : ((m : ℚ)) < ((m : ℚ)) + 1 := by linarith
    apply add_lt_add_left
    rw [div_lt_div_iff_of_pos_right hden]
    push_cast
    nlinarith

/-- Membership bound for `linspace 0 L n`: every sample lies in `[0, L]`
when `0 ≤ L`. -/
theorem linspace_mem_bounds (L : ℚ) (n : ℕ) (hL : 0 ≤ L) :
    ∀ p ∈ linspace 0 L n, 0 ≤ p ∧ p ≤ L := by
  intro p hp
  rcases List.mem_map.mp hp with ⟨i, hi, rfl⟩
  have hin := List.mem_range.mp hi
  rcases Nat.eq_zero_or_pos i with rfl | hipos
  · simp [hL]
  · have hn2 : 2 ≤ n := by omega
    have hden : (0 : ℚ) < (n : ℚ) - 1 := by
      have h2 : (2 : ℚ) ≤ (n : ℚ) := by exact_mod_cast hn2
      linarith
    have hiq : ((i : ℚ)) ≤ (n : ℚ) - 1 := by
      have h1 : (i : ℚ) + 1 ≤ (n : ℚ) := by exact_mod_cast hin
      linarith
    have hiq0 : (0 : ℚ) ≤ (i : ℚ) := by positivity
    have hgoal : 0 + (L - 0) * (i : ℚ) / ((n : ℚ) - 1) = L * (i : ℚ) / ((n : ℚ) - 1) := by
      ring
    constructor
    · rw [hgoal]
      exact div_nonneg (mul_nonneg hL hiq0) hden.le
    · rw [hgoal, div_le_iff₀ hden]
      nlinarith

/-- C1: for the solve over `t_eval = linspace(0, t_end, 120)` (with
`t_end = 3600 / tau`, `tau > 0`, and the script's tolerances
`atol = rtol = 1e-6`, `root_tol = 1e-3`), the returned Solution's time axis
equals the requested `t_eval` grid exactly, has length 120, starts at 0, and
is strictly increasing. -/
theorem solve_time_axis (m : DiscretisedModel) (tau : ℚ) (htau : 0 < tau) :
    ∃ sol : Solution,
      solve m (1 / 1000000) (1 / 1000000) (1 / 1000)
          (linspace 0 (3600 / tau) 120) = .ok sol ∧
      sol.t = linspace 0 (3600 / tau) 120 ∧
      sol.t.length = 120 ∧
      sol.t.headD 1 = 0 ∧
      List.Chain' (· < ·) sol.t := by
  have hcond : ¬ ((1 : ℚ) / 1000000 ≤ 0 ∨ (1 : ℚ) / 1000000 ≤ 0 ∨ (1 : ℚ) / 1000 ≤ 0) := by
    norm_num
  refine ⟨⟨linspace 0 (3600 / tau) 120, (linspace 0 (3600 / tau) 120).map m.trajectory⟩,
      ?_, rfl, ?_, ?_, ?_⟩
  · rw [solve, if_neg hcond]
  · exact linspace_length _ _ _
  · exact linspace_head _ _ _ _ (by norm_num)
  · exact linspace_chain _ _ _ (by positivity) (by norm_num)

/-- Witness for C1 at `tau = 1` and a trivial discretised model. -/
theorem solve_time_axis_witness :
    (0 : ℚ) < 1 ∧
    ∃ sol : Solution,
      solve ⟨0, fun _ => []⟩ (1 / 1000000) (1 / 1000000) (1 / 1000)
          (linspace 0 (3600 / 1) 120) = .ok sol ∧
      sol.t = linspace 0 (3600 / 1) 120 ∧
      sol.t.length = 120 ∧
      sol.t.headD 1 = 0 ∧
      List.Chain' (· < ·) sol.t :=
  ⟨by norm_num, solve_time_axis ⟨0, fun _ => []⟩ 1 (by norm_num)⟩

theorem interpSegs_exact {α : Type} (blend : α → α → ℚ → α) (d : α) :
    ∀ (ps : List (ℚ × α)),
      List.Chain' (· < ·) (ps.map Prod.fst) →
      (∀ p ∈ ps, ∀ r ∈ ps, blend p.2 r.2 0 = p.2) →
      (∀ p ∈ ps, ∀ r ∈ ps, blend p.2 r.2 1 = r.2) →
      ∀ i (h : i < ps.length),
        interpSegs blend d ps (ps[i].1) = ps[i].2 := by
  intro ps
  induction ps with
  | nil => intro _ _ _ i h; exact absurd h (by simp)
  | cons p tail ih =>
    intro hchain hb0 hb1 i h
    match tail, ih, hchain, hb0, hb1, h with
    | [], _, _, hb0, _, h =>
      obtain ⟨x, v⟩ := p
      have hi : i = 0 := by
        simp only [List.length_cons, List.length_nil] at h
        omega
      subst hi
      simp [interpSegs]
    | (x1, v1) :: rest, ih, hchain, hb0, hb1, h =>
      obtain ⟨x0, v0⟩ := p
      have hx01 : x0 < x1 := by
        rw [List.map_cons, List.map_cons, List.chain'_cons] at hchain
        exact hchain.1
      have htail : List.Chain' (· < ·) (((x1, v1) :: rest).map Prod.fst) := by
        rw [List.map_cons, List.map_cons, List.chain'_cons] at hchain
        rw [List.map_cons]
        exact hchain.2
      match i, h with
      | 0, _ =>
        simp only [List.getElem_cons_zero]
        simp only [interpSegs]
        rw [if_pos hx01.le, sub_self, zero_div]
        exact hb0 (x0, v0) (by simp) (x1, v1) (by simp)
      | 1, _ =>
        simp only [List.getElem_cons_succ, List.getElem_cons_zero]
        simp only [interpSegs]
        rw [if_pos le_rfl, div_self (by linarith : x1 - x0 ≠ 0)]
        exact hb1 (x0, v0) (by simp) (x1, v1) (by simp)
      | (j + 2), h =>
        have hj : j < rest.length := by
          simp only [List.length_cons] at h
          omega
        have hj1 : j + 1 < ((x1, v1) :: rest).length := by
          simp only [List.length_cons]
          omega
        have hq : x1 < (rest[j]).1 := by
          have hpw := List.chain'_iff_pairwise.mp htail
          rw [List.map_cons, List.pairwise_cons] at hpw
          exact hpw.1 (rest[j]).1 (List.mem_map_of_mem Prod.fst (List.getElem_mem hj))
        simp only [List.getElem_cons_succ]
        simp only [interpSegs]
        rw [if_neg (not_le.mpr hq)]
        have hres := ih htail
          (fun p hp r hr => hb0 p (List.mem_cons_of_mem _ hp) r (List.mem_cons_of_mem _ hr))
          (fun p hp r hr => hb1 p (List.mem_cons_of_mem _ hp) r (List.mem_cons_of_mem _ hr))
          (j + 1) hj1
        simpa using hres

theorem interp1_exact (ps : List (ℚ × ℚ))
    (hs : List.Chain' (· < ·) (ps.map Prod.fst)) (i : ℕ) (h : i < ps.length) :
    interp1 ps (ps[i].1) = ps[i].2 :=
  interpSegs_exact lerp 0 ps hs
    (by intro p _ r _; simp [lerp])
    (by intro p _ r _; simp only [lerp, mul_one]; ring) i h

theorem zipWith_left_eq (f : ℚ → ℚ → ℚ) (hf : ∀ a b, f a b = a) :
    ∀ (l1 l2 : List ℚ), l1.length = l2.length → List.zipWith f l1 l2 = l1
  | [], [], _ => rfl
  | [], _ :: _, h => by simp at h
  | _ :: _, [], h => by simp at h
  | a :: l1, b :: l2, h => by
    simp only [List.zipWith_cons_cons, hf]
    exact congrArg _ (zipWith_left_eq f hf l1 l2 (by simpa using h))

theorem zipWith_right_eq (f : ℚ → ℚ → ℚ) (hf : ∀ a b, f a b = b) :
    ∀ (l1 l2 : List ℚ), l1.length = l2.length → List.zipWith f l1 l2 = l2
  | [], [], _ => rfl
  | [], _ :: _, h => by simp at h
  | _ :: _, [], h => by simp at h
  | a :: l1, b :: l2, h => by
    simp only [List.zipWith_cons_cons, hf]
    exact congrArg _ (zipWith_right_eq f hf l1 l2 (by simpa using h))

theorem gridLerp_zero {n : ℕ} :
    ∀ (g0 g1 : Grid), g0.length = g1.length →
      (∀ r ∈ g0, r.length = n) → (∀ r ∈ g1, r.length = n) →
      gridLerp g0 g1 0 = g0
  | [], _, _, _, _ => rfl
  | _ :: _, [], hlen, _, _ => by simp at hlen
  | r0 :: g0, r1 :: g1, hlen, h0, h1 => by
    have hrow : List.zipWith (fun a b => lerp a b 0) r0 r1 = r0 := by
      have hfun : (fun (a b : ℚ) => lerp a b 0) = fun (a _ : ℚ) => a := by
        funext a b; simp [lerp]
      rw [hfun]
      exact zipWith_left_eq _ (fun _ _ => rfl) r0 r1
        (by rw [h0 r0 (by simp), h1 r1 (by simp)])
    simp only [gridLerp, List.zipWith_cons_cons, hrow]
    exact congrArg _ (gridLerp_zero g0 g1 (by simpa using hlen)
      (fun r hr => h0 r (List.mem_cons_of_mem _ hr))
      (fun r hr => h1 r (List.mem_cons_of_mem _ hr)))

theorem gridLerp_one {n : ℕ} :
    ∀ (g0 g1 : Grid), g0.length = g1.length →
      (∀ r ∈ g0, r.length = n) → (∀ r ∈ g1, r.length = n) →
      gridLerp g0 g1 1 = g1
  | [], [], _, _, _ => rfl
  | [], _ :: _, hlen, _, _ => by simp at hlen
  | _ :: _, [], hlen, _, _ => by simp at hlen
  | r0 :: g0, r1 :: g1, hlen, h0, h1 => by
    have hrow : List.zipWith (fun a b => lerp a b 1) r0 r1 = r1 := by
      have hfun : (fun (a b : ℚ) => lerp a b 1) = fun (_ b : ℚ) => b := by
        funext a b; simp only [lerp, mul_one]; ring
      rw [hfun]
      exact zipWith_right_eq _ (fun _ _ => rfl) r0 r1
        (by rw [h0 r0 (by simp), h1 r1 (by simp)])
    simp only [gridLerp, List.zipWith_cons_cons, hrow]
    exact congrArg _ (gridLerp_one g0 g1 (by simpa using hlen)
      (fun r hr => h0 r (List.mem_cons_of_mem _ hr))
      (fun r hr => h1 r (List.mem_cons_of_mem _ hr)))

/-- Every node of a strictly sorted coordinate array lies within the array's
closed extent. -/
theorem sorted_mem_bounds (xs : List ℚ) (hs : List.Chain' (· < ·) xs)
    (i : ℕ) (h : i < xs.length) : lbound xs ≤ xs[i] ∧ xs[i] ≤ ubound xs := by
  have hpw := List.chain'_iff_pairwise.mp hs
  match xs, hpw, h with
  | x :: rest, hpw, h =>
    constructor
    · rcases Nat.eq_zero_or_pos i with rfl | hip
      · simp [lbound]
      · have hlt := List.pairwise_iff_getElem.mp hpw 0 i (by omega) h hip
        simp only [lbound, List.headD_cons]
        simpa using hlt.le
    · have hne : x :: rest ≠ [] := List.cons_ne_nil x rest
      have hlast : ubound (x :: rest) =
          (x :: rest).get ⟨(x :: rest).length - 1, by simp⟩ := by
        simp [ubound, List.getLast?_eq_getLast_of_ne_nil hne, List.getLast_eq_getElem,
          List.get_eq_getElem]
      rcases eq_or_lt_of_le (Nat.le_pred_of_lt h) with heq | hlt
      · rw [hlast]
        subst heq
        exact le_rfl
      · rw [hlast]
        exact (List.pairwise_iff_getElem.mp hpw i _ h
          (by have hpos : 0 < (x :: rest).length := by simp
              have hpred : (x :: rest).length.pred + 1 = (x :: rest).length := rfl
              omega) hlt).le

/-- Bilinear interpolation is exact at the grid nodes. -/
theorem bilinear_exact (ys zs : List ℚ) (g : Grid)
    (hy : List.Chain' (· < ·) ys) (hz : List.Chain' (· < ·) zs)
    (hg : Shaped zs.length ys.length g)
    (i j : ℕ) (hi : i < ys.length) (hj : j < zs.length) :
    bilinear ys zs g ys[i] zs[j] = (g.getD j []).getD i 0 := by
  have hjg : j < g.length := by rw [hg.1]; exact hj
  have hrowlen : g[j].length = ys.length := hg.2 g[j] (List.getElem_mem hjg)
  have hinner : interp1 (ys.zip g[j]) ys[i] = (g.getD j []).getD i 0 := by
    have hzipLen : (ys.zip g[j]).length = ys.length := by
      simp [List.length_zip, hrowlen]
    have hfst : (ys.zip g[j]).map Prod.fst = ys :=
      List.map_fst_zip _ _ (by rw [hrowlen])
    have hizip : i < (ys.zip g[j]).length := by rw [hzipLen]; exact hi
    have hx : ((ys.zip g[j])[i]).1 = ys[i] := by
      rw [List.getElem_zip]
    have hv : ((ys.zip g[j])[i]).2 = (g.getD j []).getD i 0 := by
      rw [List.getElem_zip]
      rw [List.getD_eq_getElem g [] hjg, List.getD_eq_getElem g[j] 0 (by omega)]
    rw [← hx, ← hv]
    exact interp1_exact _ (by rw [hfst]; exact hy) i hizip
  have houterLen : (zs.zip (g.map (fun row => interp1 (ys.zip row) ys[i]))).length
      = zs.length := by
    simp [List.length_zip, hg.1]
  have hfst2 : (zs.zip (g.map (fun row => interp1 (ys.zip row) ys[i]))).map Prod.fst
      = zs := List.map_fst_zip _ _ (by simp [hg.1])
  have hjzip : j < (zs.zip (g.map (fun row => interp1 (ys.zip row) ys[i]))).length := by
    rw [houterLen]; exact hj
  have hx2 : ((zs.zip (g.map (fun row => interp1 (ys.zip row) ys[i])))[j]).1 = zs[j] := by
    rw [List.getElem_zip]
  have hv2 : ((zs.zip (g.map (fun row => interp1 (ys.zip row) ys[i])))[j]).2
      = (g.getD j []).getD i 0 := by
    rw [List.getElem_zip]
    simp only [List.getElem_map]
    exact hinner ▸ rfl
  rw [bilinear, ← hx2, ← hv2]
  exact interp1_exact _ (by rw [hfst2]; exact hz) j hjzip

/-- C2: round-trip exactness — evaluating a Processed Variable at the exact
coordinates of a mesh node and at an exactly sampled time in `solution.t`
returns the corresponding raw solution component. -/
theorem processedVariable_roundTrip (pv : ProcessedVariable)
    (hy : List.Chain' (· < ·) pv.y_sol)
    (hz : List.Chain' (· < ·) pv.z_sol)
    (ht : List.Chain' (· < ·) pv.t_sol)
    (hlen : pv.entries.length = pv.t_sol.length)
    (hshape : ∀ g ∈ pv.entries, Shaped pv.z_sol.length pv.y_sol.length g)
    (i j k : ℕ) (hi : i < pv.y_sol.length) (hj : j < pv.z_sol.length)
    (hk : k < pv.t_sol.length) :
    pv.eval pv.y_sol[i] pv.z_sol[j] pv.t_sol[k] =
      .ok (((pv.entries.getD k []).getD j []).getD i 0) := by
  have hyb := sorted_mem_bounds pv.y_sol hy i hi
  have hzb := sorted_mem_bounds pv.z_sol hz j hj
  have hk2 : k < pv.entries.length := by rw [hlen]; exact hk
  have hkz : k < (pv.t_sol.zip pv.entries).length := by
    rw [List.length_zip, hlen, min_self]; exact hk
  have htime : pv.timeInterp pv.t_sol[k] = pv.entries.getD k [] := by
    have hfst : (pv.t_sol.zip pv.entries).map Prod.fst = pv.t_sol :=
      List.map_fst_zip _ _ (by rw [hlen])
    have hb0 : ∀ p ∈ pv.t_sol.zip pv.entries, ∀ r ∈ pv.t_sol.zip pv.entries,
        gridLerp p.2 r.2 0 = p.2 := by
      intro p hp r hr
      have hp2 := (List.of_mem_zip hp).2
      have hr2 := (List.of_mem_zip hr).2
      exact gridLerp_zero p.2 r.2 (by rw [(hshape _ hp2).1, (hshape _ hr2).1])
        (hshape _ hp2).2 (hshape _ hr2).2
    have hb1 : ∀ p ∈ pv.t_sol.zip pv.entries, ∀ r ∈ pv.t_sol.zip pv.entries,
        gridLerp p.2 r.2 1 = r.2 := by
      intro p hp r hr
      have hp2 := (List.of_mem_zip hp).2
      have hr2 := (List.of_mem_zip hr).2
      exact gridLerp_one p.2 r.2 (by rw [(hshape _ hp2).1, (hshape _ hr2).1])
        (hshape _ hp2).2 (hshape _ hr2).2
    have hex := interpSegs_exact gridLerp [] _ (by rw [hfst]; exact ht) hb0 hb1 k hkz
    rw [show ((pv.t_sol.zip pv.entries)[k]).1 = pv.t_sol[k] from by
      rw [List.getElem_zip]] at hex
    rw [ProcessedVariable.timeInterp, hex, List.getElem_zip,
      List.getD_eq_getElem _ _ hk2]
  have hgk : Shaped pv.z_sol.length pv.y_sol.length (pv.entries.getD k []) := by
    rw [List.getD_eq_getElem _ _ hk2]
    exact hshape _ (List.getElem_mem hk2)
  rw [ProcessedVariable.eval,
    if_neg (by push_neg; exact ⟨hyb.1, hyb.2, hzb.1, hzb.2⟩)]
  exact congrArg Except.ok
    (by rw [ProcessedVariable.evalAt, htime]
        exact bilinear_exact _ _ _ hy hz hgk i j hi hj)

/-- Witness for C2 on the concrete variable `pvA`: the query at node
`(y, z) = (1, 2)` and sample time `t = 10` returns the stored entry `12`. -/
theorem processedVariable_roundTrip_witness :
    (List.Chain' (· < ·) pvA.y_sol ∧ List.Chain' (· < ·) pvA.z_sol ∧
     List.Chain' (· < ·) pvA.t_sol ∧ pvA.entries.length = pvA.t_sol.length ∧
     (∀ g ∈ pvA.entries, Shaped pvA.z_sol.length pvA.y_sol.length g)) ∧
    pvA.eval 1 2 10 = .ok 12 := by
  refine ⟨⟨by norm_num [pvA, List.chain'_cons], by norm_num [pvA, List.chain'_cons],
    by norm_num [pvA, List.chain'_cons], by decide, by decide⟩, ?_⟩
  have h := processedVariable_roundTrip pvA (by norm_num [pvA, List.chain'_cons])
    (by norm_num [pvA, List.chain'_cons]) (by norm_num [pvA, List.chain'_cons])
    (by decide) (by decide) 1 2 1 (by decide) (by decide) (by decide)
  exact h

/-- C4: domain policy — querying a Processed Variable at any coordinate
exactly on the mesh boundary (all four edges of the closed extent
`[lbound, ubound] × [lbound, ubound]`, corners included: `y` at an extreme
with `z` anywhere in its closed extent, or `z` at an extreme with `y`
anywhere in its closed extent) succeeds; querying strictly outside the mesh
extent fails with `OutOfDomainError`; and repeated identical calls give the
same outcome. -/
theorem eval_domain_policy (pv : ProcessedVariable) (t : ℚ)
    (hy : List.Chain' (· < ·) pv.y_sol) (hz : List.Chain' (· < ·) pv.z_sol)
    (hyne : pv.y_sol ≠ []) (hzne : pv.z_sol ≠ []) :
    (∀ y z,
      (((y = lbound pv.y_sol ∨ y = ubound pv.y_sol) ∧
          lbound pv.z_sol ≤ z ∧ z ≤ ubound pv.z_sol) ∨
        ((z = lbound pv.z_sol ∨ z = ubound pv.z_sol) ∧
          lbound pv.y_sol ≤ y ∧ y ≤ ubound pv.y_sol)) →
      ∃ v, pv.eval y z t = .ok v) ∧
    (∀ y z, (y < lbound pv.y_sol ∨ ubound pv.y_sol < y ∨
             z < lbound pv.z_sol ∨ ubound pv.z_sol < z) →
      pv.eval y z t = .error .mk) ∧
    (∀ y z, pv.eval y z t = pv.eval y z t) := by
  have hylen : 0 < pv.y_sol.length := List.length_pos.mpr hyne
  have hzlen : 0 < pv.z_sol.length := List.length_pos.mpr hzne
  have hyb := sorted_mem_bounds pv.y_sol hy 0 hylen
  have hzb := sorted_mem_bounds pv.z_sol hz 0 hzlen
  have hyub : lbound pv.y_sol ≤ ubound pv.y_sol := hyb.1.trans hyb.2
  have hzub : lbound pv.z_sol ≤ ubound pv.z_sol := hzb.1.trans hzb.2
  have hin : ∀ y z, lbound pv.y_sol ≤ y → y ≤ ubound pv.y_sol →
      lbound pv.z_sol ≤ z → z ≤ ubound pv.z_sol →
      ∃ v, pv.eval y z t = .ok v := by
    intro y z h1 h2 h3 h4
    exact ⟨_, by
      rw [ProcessedVariable.eval, if_neg (by push_neg; exact ⟨h1, h2, h3, h4⟩)]⟩
  refine ⟨?_, ?_, fun _ _ => rfl⟩
  · rintro y z (⟨hyc | hyc, hz1, hz2⟩ | ⟨hzc | hzc, hy1, hy2⟩)
    · subst hyc
      exact hin _ _ le_rfl hyub hz1 hz2
    · subst hyc
      exact hin _ _ hyub le_rfl hz1 hz2
    · subst hzc
      exact hin _ _ hy1 hy2 le_rfl hzub
    · subst hzc
      exact hin _ _ hy1 hy2 hzub le_rfl
  · intro y z hout
    rw [ProcessedVariable.eval, if_pos hout]

/-- Witness for C4 on the concrete variable `pvA` at `t = 5`. -/
theorem eval_domain_policy_witness :
    (List.Chain' (· < ·) pvA.y_sol ∧ List.Chain' (· < ·) pvA.z_sol ∧
     pvA.y_sol ≠ [] ∧ pvA.z_sol ≠ []) ∧
    ((∀ y z,
      (((y = lbound pvA.y_sol ∨ y = ubound pvA.y_sol) ∧
          lbound pvA.z_sol ≤ z ∧ z ≤ ubound pvA.z_sol) ∨
        ((z = lbound pvA.z_sol ∨ z = ubound pvA.z_sol) ∧
          lbound pvA.y_sol ≤ y ∧ y ≤ ubound pvA.y_sol)) →
      ∃ v, pvA.eval y z 5 = .ok v) ∧
    (∀ y z, (y < lbound pvA.y_sol ∨ ubound pvA.y_sol < y ∨
             z < lbound pvA.z_sol ∨ ubound pvA.z_sol < z) →
      pvA.eval y z 5 = .error .mk) ∧
    (∀ y z, pvA.eval y z 5 = pvA.eval y z 5)) :=
  ⟨⟨by norm_num [pvA, List.chain'_cons], by norm_num [pvA, List.chain'_cons],
      by decide, by decide⟩,
    eval_domain_policy pvA 5 (by norm_num [pvA, List.chain'_cons])
      (by norm_num [pvA, List.chain'_cons]) (by decide) (by decide)⟩

theorem map_fst_zip_eq_take {α : Type} :
    ∀ (l1 : List ℚ) (l2 : List α),
      (l1.zip l2).map Prod.fst = l1.take l2.length
  | [], _ => by simp
  | _ :: _, [] => by simp
  | a :: l1, b :: l2 => by
    simp only [List.zip_cons_cons, List.map_cons, List.length_cons, List.take_succ_cons]
    exact congrArg _ (map_fst_zip_eq_take l1 l2)

theorem head?_zip_fst {α : Type} (l1 : List ℚ) (l2 : List α) (p : ℚ × α)
    (h : (l1.zip l2).head? = some p) : l1.head? = some p.1 := by
  match l1, l2, h with
  | a :: l1, b :: l2, h =>
    rw [List.zip_cons_cons, List.head?_cons, Option.some.injEq] at h
    rw [List.head?_cons, ← h]

/-- First node of a nonempty coordinate array is its lower bound. -/
theorem lbound_of_head? (xs : List ℚ) (p : ℚ) (h : xs.head? = some p) :
    p = lbound xs := by
  match xs, h with
  | x :: rest, h =>
    rw [List.head?_cons, Option.some.injEq] at h
    rw [lbound, List.headD_cons, ← h]

/-- Preservation of a predicate by segment interpolation: if the default and
all stored values satisfy `P`, the blend preserves `P` on `[0, 1]`, and the
query is at or past the first node, then the interpolated value satisfies
`P`. -/
theorem interpSegs_pred {α : Type} (blend : α → α → ℚ → α) (d : α)
    (P : α → Prop) (hd : P d)
    (hblend : ∀ a b θ, P a → P b → 0 ≤ θ → θ ≤ 1 → P (blend a b θ)) :
    ∀ (ps : List (ℚ × α)) (q : ℚ),
      List.Chain' (· < ·) (ps.map Prod.fst) →
      (∀ p ∈ ps, P p.2) →
      (∀ p, ps.head? = some p → p.1 ≤ q) →
      P (interpSegs blend d ps q)
  | [], q, _, _, _ => hd
  | [(x, v)], q, _, hps, _ => by
    simpa [interpSegs] using hps (x, v) (by simp)
  | (x0, v0) :: (x1, v1) :: rest, q, hchain, hps, hq => by
    have hx01 : x0 < x1 := by
      rw [List.map_cons, List.map_cons, List.chain'_cons] at hchain
      exact hchain.1
    have htail : List.Chain' (· < ·) (((x1, v1) :: rest).map Prod.fst) := by
      rw [List.map_cons, List.map_cons, List.chain'_cons] at hchain
      rw [List.map_cons]
      exact hchain.2
    have hx0q : x0 ≤ q := hq (x0, v0) rfl
    by_cases hcase : q ≤ x1
    · simp only [interpSegs]
      rw [if_pos hcase]
      exact hblend _ _ _ (hps (x0, v0) (by simp)) (hps (x1, v1) (by simp))
        (div_nonneg (by linarith) (by linarith))
        ((div_le_one (by linarith)).mpr (by linarith))
    · simp only [interpSegs]
      rw [if_neg hcase]
      exact interpSegs_pred blend d P hd hblend ((x1, v1) :: rest) q htail
        (fun p hp => hps p (List.mem_cons_of_mem _ hp))
        (fun p hp => by
          rw [List.head?_cons, Option.some.injEq] at hp
          rw [← hp]
          exact (not_le.mp hcase).le)

/-- Convexity bound for the linear blend. -/
theorem lerp_abs_le (B a b θ : ℚ) (ha : |a| ≤ B) (hb : |b| ≤ B)
    (h0 : 0 ≤ θ) (h1 : θ ≤ 1) : |lerp a b θ| ≤ B := by
  rw [abs_le] at ha hb ⊢
  unfold lerp
  constructor
  · nlinarith [mul_nonneg (by linarith : (0:ℚ) ≤ 1 - θ) (by linarith : (0:ℚ) ≤ a + B),
      mul_nonneg h0 (by linarith : (0:ℚ) ≤ b + B)]
  · nlinarith [mul_nonneg (by linarith : (0:ℚ) ≤ 1 - θ) (by linarith : (0:ℚ) ≤ B - a),
      mul_nonneg h0 (by linarith : (0:ℚ) ≤ B - b)]

theorem mem_zipWith {α β γ : Type} (f : α → β → γ) :
    ∀ (l1 : List α) (l2 : List β) (c : γ), c ∈ List.zipWith f l1 l2 →
      ∃ a ∈ l1, ∃ b ∈ l2, c = f a b
  | [], _, c, h => by simp at h
  | _ :: _, [], c, h => by simp at h
  | a :: l1, b :: l2, c, h => by
    rw [List.zipWith_cons_cons] at h
    rcases List.mem_cons.mp h with rfl | h2
    · exact ⟨a, by simp, b, by simp, rfl⟩
    · rcases mem_zipWith f l1 l2 c h2 with ⟨a2, ha, b2, hb, rfl⟩
      exact ⟨a2, by simp [ha], b2, by simp [hb], rfl⟩

theorem gridLerp_bounded (B θ : ℚ) (g0 g1 : Grid)
    (h0 : GridBounded B g0) (h1 : GridBounded B g1)
    (hθ0 : 0 ≤ θ) (hθ1 : θ ≤ 1) : GridBounded B (gridLerp g0 g1 θ) := by
  intro r hr v hv
  rcases mem_zipWith _ g0 g1 r hr with ⟨r0, hr0, r1, hr1, rfl⟩
  rcases mem_zipWith _ r0 r1 v hv with ⟨a, ha, b, hb, rfl⟩
  exact lerp_abs_le B a b θ (h0 r0 hr0 a ha) (h1 r1 hr1 b hb) hθ0 hθ1

theorem interp1_abs_le (B : ℚ) (hB : 0 ≤ B) (ps : List (ℚ × ℚ)) (q : ℚ)
    (hchain : List.Chain' (· < ·) (ps.map Prod.fst))
    (hps : ∀ p ∈ ps, |p.2| ≤ B)
    (hq : ∀ p, ps.head? = some p → p.1 ≤ q) : |interp1 ps q| ≤ B :=
  interpSegs_pred lerp 0 (fun v => |v| ≤ B) (by simpa using hB)
    (fun a b θ ha hb h0 h1 => lerp_abs_le B a b θ ha hb h0 h1) ps q hchain hps hq

theorem bilinear_abs_le (B : ℚ) (hB : 0 ≤ B) (ys zs : List ℚ) (g : Grid)
    (hy : List.Chain' (· < ·) ys) (hz : List.Chain' (· < ·) zs)
    (hg : GridBounded B g) (y z : ℚ)
    (hyq : ∀ p, ys.head? = some p → p ≤ y)
    (hzq : ∀ p, zs.head? = some p → p ≤ z) :
    |bilinear ys zs g y z| ≤ B := by
  apply interp1_abs_le B hB _ z
  · rw [map_fst_zip_eq_take]
    exact hz.take _
  · intro p hp
    have hp2 := (List.of_mem_zip hp).2
    rcases List.mem_map.mp hp2 with ⟨row, hrow, hpeq⟩
    rw [← hpeq]
    apply interp1_abs_le B hB _ y
    · rw [map_fst_zip_eq_take]
      exact hy.take _
    · intro r hr
      exact hg row hrow r.2 (List.of_mem_zip hr).2
    · intro r hr
      exact hyq r.1 (head?_zip_fst _ _ _ hr)
  · intro p hp
    exact hzq p.1 (head?_zip_fst _ _ _ hp)

theorem evalAt_abs_le (pv : ProcessedVariable) (B y z t : ℚ) (hB : 0 ≤ B)
    (hy : List.Chain' (· < ·) pv.y_sol) (hz : List.Chain' (· < ·) pv.z_sol)
    (ht : List.Chain' (· < ·) pv.t_sol)
    (hbound : ∀ g ∈ pv.entries, GridBounded B g)
    (hyq : ∀ p, pv.y_sol.head? = some p → p ≤ y)
    (hzq : ∀ p, pv.z_sol.head? = some p → p ≤ z)
    (htq : ∀ p, pv.t_sol.head? = some p → p ≤ t) :
    |pv.evalAt y z t| ≤ B := by
  have hgrid : GridBounded B (pv.timeInterp t) := by
    apply interpSegs_pred gridLerp [] (GridBounded B) (by intro r hr; simp at hr)
      (fun a b θ ha hb h0 h1 => gridLerp_bounded B θ a b ha hb h0 h1) _ t
    · rw [map_fst_zip_eq_take]
      exact ht.take _
    · intro p hp
      exact hbound p.2 (List.of_mem_zip hp).2
    · intro p hp
      exact htq p.1 (head?_zip_fst _ _ _ hp)
  exact bilinear_abs_le B hB _ _ _ hy hz hgrid y z hyq hzq

/-- C5: querying a Processed Variable (such as "Current collector current
density [A.m-2]") on the script's 21×21 coordinate grid at an in-range time
returns a 21×21 array of finite rational values, each bounded in magnitude by
any bound `B` on the stored raw data (the physically plausible threshold
derived from the applied C-rate). -/
theorem evalGrid_shape_bounded (pv : ProcessedVariable) (t B : ℚ)
    (hy : List.Chain' (· < ·) pv.y_sol) (hz : List.Chain' (· < ·) pv.z_sol)
    (ht : List.Chain' (· < ·) pv.t_sol)
    (hyne : pv.y_sol ≠ []) (hzne : pv.z_sol ≠ [])
    (hB : 0 ≤ B)
    (hbound : ∀ g ∈ pv.entries, GridBounded B g)
    (hy0 : lbound pv.y_sol = 0) (hz0 : lbound pv.z_sol = 0)
    (htq : ∀ p, pv.t_sol.head? = some p → p ≤ t) :
    (pv.evalGrid (linspace 0 (ubound pv.y_sol) 21)
        (linspace 0 (ubound pv.z_sol) 21) t).length = 21 ∧
    ∀ row ∈ pv.evalGrid (linspace 0 (ubound pv.y_sol) 21)
        (linspace 0 (ubound pv.z_sol) 21) t,
      row.length = 21 ∧ ∀ e ∈ row, ∃ v, e = .ok v ∧ |v| ≤ B := by
  have hylen : 0 < pv.y_sol.length := List.length_pos.mpr hyne
  have hzlen : 0 < pv.z_sol.length := List.length_pos.mpr hzne
  have hyb := sorted_mem_bounds pv.y_sol hy 0 hylen
  have hzb := sorted_mem_bounds pv.z_sol hz 0 hzlen
  have hyub : (0 : ℚ) ≤ ubound pv.y_sol := by rw [← hy0]; exact hyb.1.trans hyb.2
  have hzub : (0 : ℚ) ≤ ubound pv.z_sol := by rw [← hz0]; exact hzb.1.trans hzb.2
  constructor
  · simp [ProcessedVariable.evalGrid, linspace_length]
  · intro row hrow
    rcases List.mem_map.mp hrow with ⟨y, hymem, rfl⟩
    have hybnd := linspace_mem_bounds _ 21 hyub y hymem
    constructor
    · simp [linspace_length]
    · intro e he
      rcases List.mem_map.mp he with ⟨z, hzmem, rfl⟩
      have hzbnd := linspace_mem_bounds _ 21 hzub z hzmem
      refine ⟨pv.evalAt y z t, ?_, ?_⟩
      · rw [ProcessedVariable.eval, if_neg]
        push_neg
        exact ⟨by rw [hy0]; exact hybnd.1, hybnd.2,
          by rw [hz0]; exact hzbnd.1, hzbnd.2⟩
      · apply evalAt_abs_le pv B y z t hB hy hz ht hbound
        · intro p hp
          rw [lbound_of_head? _ p hp, hy0]
          exact hybnd.1
        · intro p hp
          rw [lbound_of_head? _ p hp, hz0]
          exact hzbnd.1
        · exact htq

/-- Witness for C5 on the concrete variable `pvA` with bound `B = 12` at
`t = 10`. -/
theorem evalGrid_shape_bounded_witness :
    (List.Chain' (· < ·) pvA.y_sol ∧ List.Chain' (· < ·) pvA.z_sol ∧
     List.Chain' (· < ·) pvA.t_sol ∧ pvA.y_sol ≠ [] ∧ pvA.z_sol ≠ [] ∧
     (0 : ℚ) ≤ 12 ∧ (∀ g ∈ pvA.entries, GridBounded 12 g) ∧
     lbound pvA.y_sol = 0 ∧ lbound pvA.z_sol = 0 ∧
     (∀ p, pvA.t_sol.head? = some p → p ≤ 10)) ∧
    ((pvA.evalGrid (linspace 0 (ubound pvA.y_sol) 21)
        (linspace 0 (ubound pvA.z_sol) 21) 10).length = 21 ∧
    ∀ row ∈ pvA.evalGrid (linspace 0 (ubound pvA.y_sol) 21)
        (linspace 0 (ubound pvA.z_sol) 21) 10,
      row.length = 21 ∧ ∀ e ∈ row, ∃ v, e = .ok v ∧ |v| ≤ 12) := by
  have htq : ∀ p, pvA.t_sol.head? = some p → p ≤ 10 := by
    intro p hp
    simp [pvA] at hp
    simp [← hp]
  refine ⟨⟨by norm_num [pvA, List.chain'_cons], by norm_num [pvA, List.chain'_cons],
    by norm_num [pvA, List.chain'_cons], by decide, by decide, by norm_num,
    by decide, by decide, by decide, htq⟩, ?_⟩
  exact evalGrid_shape_bounded pvA 10 12 (by norm_num [pvA, List.chain'_cons])
    (by norm_num [pvA, List.chain'_cons]) (by norm_num [pvA, List.chain'_cons])
    (by decide) (by decide) (by norm_num) (by decide) (by decide) (by decide) htq

/-- C10: the script's query grids `y_plot = linspace(0, l_y, 21)` and
`z_plot = linspace(0, l_z, 21)`, with `l_y`/`l_z` taken from the last mesh
coordinates (`phi_s_cp.y_sol[-1]`, `phi_s_cp.z_sol[-1]`), lie inside the
closed extent `[0, l_y] × [0, l_z]`, so the out-of-domain branch is
unreachable for every query the script issues. -/
theorem script_grid_in_domain (pv : ProcessedVariable) (t : ℚ)
    (hy : List.Chain' (· < ·) pv.y_sol) (hz : List.Chain' (· < ·) pv.z_sol)
    (hyne : pv.y_sol ≠ []) (hzne : pv.z_sol ≠ [])
    (hy0 : lbound pv.y_sol = 0) (hz0 : lbound pv.z_sol = 0) :
    (∀ y ∈ linspace 0 (ubound pv.y_sol) 21, 0 ≤ y ∧ y ≤ ubound pv.y_sol) ∧
    (∀ z ∈ linspace 0 (ubound pv.z_sol) 21, 0 ≤ z ∧ z ≤ ubound pv.z_sol) ∧
    (∀ y ∈ linspace 0 (ubound pv.y_sol) 21,
     ∀ z ∈ linspace 0 (ubound pv.z_sol) 21,
       ∃ v, pv.eval y z t = .ok v) := by
  have hylen : 0 < pv.y_sol.length := List.length_pos.mpr hyne
  have hzlen : 0 < pv.z_sol.length := List.length_pos.mpr hzne
  have hyb := sorted_mem_bounds pv.y_sol hy 0 hylen
  have hzb := sorted_mem_bounds pv.z_sol hz 0 hzlen
  have hyub : (0 : ℚ) ≤ ubound pv.y_sol := by rw [← hy0]; exact hyb.1.trans hyb.2
  have hzub : (0 : ℚ) ≤ ubound pv.z_sol := by rw [← hz0]; exact hzb.1.trans hzb.2
  refine ⟨linspace_mem_bounds _ 21 hyub, linspace_mem_bounds _ 21 hzub, ?_⟩
  intro y hymem z hzmem
  have hybnd := linspace_mem_bounds _ 21 hyub y hymem
  have hzbnd := linspace_mem_bounds _ 21 hzub z hzmem
  refine ⟨pv.evalAt y z t, ?_⟩
  rw [ProcessedVariable.eval, if_neg]
  push_neg
  exact ⟨by rw [hy0]; exact hybnd.1, hybnd.2, by rw [hz0]; exact hzbnd.1, hzbnd.2⟩

/-- Witness for C10 on the concrete variable `pvA` at `t = 3`. -/
theorem script_grid_in_domain_witness :
    (List.Chain' (· < ·) pvA.y_sol ∧ List.Chain' (· < ·) pvA.z_sol ∧
     pvA.y_sol ≠ [] ∧ pvA.z_sol ≠ [] ∧
     lbound pvA.y_sol = 0 ∧ lbound pvA.z_sol = 0) ∧
    ((∀ y ∈ linspace 0 (ubound pvA.y_sol) 21, 0 ≤ y ∧ y ≤ ubound pvA.y_sol) ∧
    (∀ z ∈ linspace 0 (ubound pvA.z_sol) 21, 0 ≤ z ∧ z ≤ ubound pvA.z_sol) ∧
    (∀ y ∈ linspace 0 (ubound pvA.y_sol) 21,
     ∀ z ∈ linspace 0 (ubound pvA.z_sol) 21,
       ∃ v, pvA.eval y z 3 = .ok v)) :=
  ⟨⟨by norm_num [pvA, List.chain'_cons], by norm_num [pvA, List.chain'_cons],
     by decide, by decide, by decide, by decide⟩,
   script_grid_in_domain pvA 3 (by norm_num [pvA, List.chain'_cons])
     (by norm_num [pvA, List.chain'_cons]) (by decide) (by decide)
     (by decide) (by decide)⟩

theorem argminAbsAux_spec (t : ℚ) :
    ∀ (ts : List ℚ), ts ≠ [] →
      ∃ j v, argminAbsAux t ts = some (j, v) ∧ j < ts.length ∧
        |ts.getD j 0 - t| = v ∧ ∀ s ∈ ts, v ≤ |s - t|
  | [], h => absurd rfl h
  | s :: rest, _ => by
    rcases eq_or_ne rest [] with rfl | hne
    · refine ⟨0, |s - t|, by simp [argminAbsAux], by simp, by simp, ?_⟩
      intro x hx
      rw [List.mem_singleton] at hx
      rw [hx]
    · rcases argminAbsAux_spec t rest hne with ⟨j, v, heq, hj, hval, hmin⟩
      by_cases hcase : |s - t| ≤ v
      · refine ⟨0, |s - t|, ?_, by simp, by simp, ?_⟩
        · rw [argminAbsAux, heq]
          simp [hcase]
        · intro x hx
          rcases List.mem_cons.mp hx with rfl | hx2
          · exact le_refl _
          · exact le_trans hcase (hmin x hx2)
      · refine ⟨j + 1, v, ?_, by simpa using Nat.succ_lt_succ hj, ?_, ?_⟩
        · rw [argminAbsAux, heq]
          simp [hcase]
        · simpa [List.getD_cons_succ] using hval
        · intro x hx
          rcases List.mem_cons.mp hx with rfl | hx2
          · exact (not_le.mp hcase).le
          · exact hmin x hx2

/-- C9: `plot(t)` evaluates every Processed Variable at `solution.t[ind]`
with `ind = argmin |solution.t - t|`: the rendered snapshot time is always
one of the Solution's exactly sampled times — a nearest one to the requested
`t` — never an interpolated intermediate time. -/
theorem plotSnapshotTime_nearest_sample (sol : Solution) (t : ℚ)
    (hne : sol.t ≠ []) :
    plotSnapshotTime sol t ∈ sol.t ∧
    ∀ s ∈ sol.t, |plotSnapshotTime sol t - t| ≤ |s - t| := by
  rcases argminAbsAux_spec t sol.t hne with ⟨j, v, heq, hj, hval, hmin⟩
  have hidx : argminAbs sol.t t = j := by rw [argminAbs, heq]; rfl
  have htt : plotSnapshotTime sol t = sol.t.getD j 0 := by
    rw [plotSnapshotTime, hidx]
  constructor
  · rw [htt, List.getD_eq_getElem _ _ hj]
    exact List.getElem_mem hj
  · intro s hs
    rw [htt, hval]
    exact hmin s hs

/-- Witness for C9: with time samples `[0, 1, 2]` and request `t = 5/4`, the
snapshot time is a stored sample nearest to the request. -/
theorem plotSnapshotTime_nearest_sample_witness :
    (Solution.mk [0, 1, 2] []).t ≠ [] ∧
    (plotSnapshotTime (Solution.mk [0, 1, 2] []) (5 / 4) ∈
        (Solution.mk [0, 1, 2] []).t ∧
      ∀ s ∈ (Solution.mk [0, 1, 2] []).t,
        |plotSnapshotTime (Solution.mk [0, 1, 2] []) (5 / 4) - 5 / 4| ≤
          |s - 5 / 4|) :=
  ⟨by decide, plotSnapshotTime_nearest_sample (Solution.mk [0, 1, 2] []) (5 / 4)
    (by decide)⟩

/-- C3: mesh generation is deterministic — with node counts at or above the
stage minimums and known submesh families the build succeeds, and two calls
with identical arguments produce the same coordinate arrays (the model has
no source of randomness). -/
theorem meshBuild_deterministic (vars : List SpatialVarSpec)
    (hmin : ∀ v ∈ vars, minPts v.dim ≤ v.pts)
    (hsub : ∀ v ∈ vars, submeshOk v.submesh v.dim = true) :
    ∃ coords : List (List ℚ),
      meshBuild vars = .ok coords ∧ meshBuild vars = .ok coords := by
  have hsubAll : vars.all (fun v => submeshOk v.submesh v.dim) = true :=
    List.all_eq_true.mpr hsub
  have hminAll : (vars.all fun v => decide (minPts v.dim ≤ v.pts)) = true :=
    List.all_eq_true.mpr (fun v hv => decide_eq_true (hmin v hv))
  exact ⟨_, by rw [meshBuild, if_pos hsubAll, if_pos hminAll],
    by rw [meshBuild, if_pos hsubAll, if_pos hminAll]⟩

/-- Witness for C3 at the script's `var_pts`. -/
theorem meshBuild_deterministic_witness :
    ((∀ v ∈ scriptVarPts, minPts v.dim ≤ v.pts) ∧
     (∀ v ∈ scriptVarPts, submeshOk v.submesh v.dim = true)) ∧
    ∃ coords : List (List ℚ),
      meshBuild scriptVarPts = .ok coords ∧ meshBuild scriptVarPts = .ok coords :=
  ⟨⟨by decide, by decide⟩,
    meshBuild_deterministic scriptVarPts (by decide) (by decide)⟩

/-- C8: the mesh build fails with `MeshError` exactly when some requested
node count is below the stage minimum (2 for 1D variables, 3 for the 2D
planar mesh) or some requested submesh family is unknown for its domain's
dimensionality; the script's `var_pts` satisfies the constraint and the
build succeeds. -/
theorem meshBuild_error_iff :
    (∀ vars : List SpatialVarSpec,
      (∃ e, meshBuild vars = .error e) ↔
        ((∃ v ∈ vars, v.pts < minPts v.dim) ∨
         (∃ v ∈ vars, submeshOk v.submesh v.dim = false))) ∧
    (∃ coords, meshBuild scriptVarPts = .ok coords) := by
  constructor
  · intro vars
    by_cases hsub : vars.all (fun v => submeshOk v.submesh v.dim) = true
    · by_cases hmin : (vars.all fun v => decide (minPts v.dim ≤ v.pts)) = true
      · rw [meshBuild, if_pos hsub, if_pos hmin]
        constructor
        · rintro ⟨e, he⟩
          cases he
        · rintro (⟨v, hv, hlt⟩ | ⟨v, hv, hfalse⟩)
          · have hle := List.all_eq_true.mp hmin v hv
            rw [decide_eq_true_eq] at hle
            omega
          · have htrue := List.all_eq_true.mp hsub v hv
            rw [hfalse] at htrue
            cases htrue
      · rw [meshBuild, if_pos hsub, if_neg hmin]
        constructor
        · intro _
          left
          simp only [List.all_eq_true, not_forall] at hmin
          rcases hmin with ⟨v, hv, hd⟩
          refine ⟨v, hv, ?_⟩
          rw [decide_eq_true_eq] at hd
          omega
        · intro _
          exact ⟨.resolutionTooLow, rfl⟩
    · rw [meshBuild, if_neg hsub]
      constructor
      · intro _
        right
        simp only [List.all_eq_true, not_forall] at hsub
        rcases hsub with ⟨v, hv, hd⟩
        exact ⟨v, hv, Bool.not_eq_true _ ▸ hd⟩
      · intro _
        exact ⟨.unknownSubmeshType, rfl⟩
  · exact ⟨_, by rw [meshBuild, if_pos (by decide), if_pos (by decide)]⟩

/-- C6: the Solution is immutable after the solve completes — every sequence
of post-solve operations (binding any number of Processed Variables to it
and evaluating any of them) leaves the Solution's time samples and state
vectors unchanged; all Processed Variables share it read-only. -/
theorem solution_immutable (ops : List PostSolveOp) (st : PostSolveState) :
    (runPost st ops).solution = st.solution := by
  induction ops generalizing st with
  | nil => rfl
  | cons op ops ih =>
    cases op with
    | bindVar n =>
      simp only [runPost]
      exact ih _
    | evalVar i y z t =>
      simp only [runPost]
      exact ih _

theorem evalExpr_ref_stack (store : List (String × PExpr))
    (stack : List String) (n : String) (hn : n ∈ stack) :
    evalExpr store stack (.ref n) = .error (.cyclic n) := by
  rw [evalExpr, dif_pos hn]

theorem evalExpr_ref_none (store : List (String × PExpr))
    (stack : List String) (n : String) (hn : n ∉ stack)
    (hl : lookupName store n = none) :
    evalExpr store stack (.ref n) = .error (.unresolved n) := by
  rw [evalExpr, dif_neg hn]
  split
  · rfl
  · rename_i e2 hl2
    rw [hl] at hl2
    cases hl2

theorem evalExpr_ref_some (store : List (String × PExpr))
    (stack : List String) (n : String) (body : PExpr) (hn : n ∉ stack)
    (hl : lookupName store n = some body) :
    evalExpr store stack (.ref n) = evalExpr store (n :: stack) body := by
  rw [evalExpr, dif_neg hn]
  split
  · rename_i hl2
    rw [hl] at hl2
    cases hl2
  · rename_i e2 hl2
    rw [hl] at hl2
    cases hl2
    rfl

/-- Agreement of the resolver with the spec-level failure conditions: a
scalar result rules both out, an `unresolved` result witnesses a missing
referenced name, a `cyclic` result witnesses recursion into an in-progress
name. -/
theorem evalExpr_sound (store : List (String × PExpr)) :
    ∀ (stack : List String) (e : PExpr),
      (∀ q, evalExpr store stack e = .ok q →
        ¬ MissingRef store stack e ∧ ¬ CyclicRef store stack e) ∧
      (∀ n, evalExpr store stack e = .error (.unresolved n) →
        MissingRef store stack e ∧ lookupName store n = none) ∧
      (∀ n, evalExpr store stack e = .error (.cyclic n) →
        CyclicRef store stack e)
  | stack, .lit q => by
    refine ⟨?_, ?_, ?_⟩
    · intro q2 _
      constructor
      · intro hM
        cases hM
      · intro hC
        cases hC
    · intro n h
      rw [evalExpr] at h
      cases h
    · intro n h
      rw [evalExpr] at h
      cases h
  | stack, .binOp op a b => by
    have iha := evalExpr_sound store stack a
    have ihb := evalExpr_sound store stack b
    cases hra : evalExpr store stack a with
    | ok qa =>
      cases hrb : evalExpr store stack b with
      | ok qb =>
        have hval : evalExpr store stack (.binOp op a b) = .ok (op qa qb) := by
          rw [evalExpr, hra, hrb]
        have hna := iha.1 qa hra
        have hnb := ihb.1 qb hrb
        refine ⟨?_, ?_, ?_⟩
        · intro q _
          constructor
          · intro hM
            cases hM with
            | binLeft _ _ _ _ hMa => exact hna.1 hMa
            | binRight _ _ _ _ hMb => exact hnb.1 hMb
          · intro hC
            cases hC with
            | binLeft _ _ _ _ hCa => exact hna.2 hCa
            | binRight _ _ _ _ hCb => exact hnb.2 hCb
        · intro n h
          rw [hval] at h
          cases h
        · intro n h
          rw [hval] at h
          cases h
      | error eb =>
        have hval : evalExpr store stack (.binOp op a b) = .error eb := by
          rw [evalExpr, hra, hrb]
        refine ⟨?_, ?_, ?_⟩
        · intro q hq
          rw [hval] at hq
          cases hq
        · intro n h
          rw [hval] at h
          injection h with h2
          subst h2
          have h3 := ihb.2.1 n hrb
          exact ⟨MissingRef.binRight stack op a b h3.1, h3.2⟩
        · intro n h
          rw [hval] at h
          injection h with h2
          subst h2
          exact CyclicRef.binRight stack op a b (ihb.2.2 n hrb)
    | error ea =>
      cases hrb : evalExpr store stack b with
      | ok qb =>
        have hval : evalExpr store stack (.binOp op a b) = .error ea := by
          rw [evalExpr, hra, hrb]
        refine ⟨?_, ?_, ?_⟩
        · intro q hq
          rw [hval] at hq
          cases hq
        · intro n h
          rw [hval] at h
          injection h with h2
          subst h2
          have h3 := iha.2.1 n hra
          exact ⟨MissingRef.binLeft stack op a b h3.1, h3.2⟩
        · intro n h
          rw [hval] at h
          injection h with h2
          subst h2
          exact CyclicRef.binLeft stack op a b (iha.2.2 n hra)
      | error eb =>
        have hval : evalExpr store stack (.binOp op a b) = .error ea := by
          rw [evalExpr, hra, hrb]
        refine ⟨?_, ?_, ?_⟩
        · intro q hq
          rw [hval] at hq
          cases hq
        · intro n h
          rw [hval] at h
          injection h with h2
          subst h2
          have h3 := iha.2.1 n hra
          exact ⟨MissingRef.binLeft stack op a b h3.1, h3.2⟩
        · intro n h
          rw [hval] at h
          injection h with h2
          subst h2
          exact CyclicRef.binLeft stack op a b (iha.2.2 n hra)
  | stack, .ref n => by
    by_cases hn : n ∈ stack
    · have hval := evalExpr_ref_stack store stack n hn
      refine ⟨?_, ?_, ?_⟩
      · intro q hq
        rw [hval] at hq
        cases hq
      · intro m h
        rw [hval] at h
        injection h with h2
        cases h2
      · intro m h
        exact CyclicRef.refStack stack n hn
    · cases hl : lookupName store n with
      | none =>
        have hval := evalExpr_ref_none store stack n hn hl
        refine ⟨?_, ?_, ?_⟩
        · intro q hq
          rw [hval] at hq
          cases hq
        · intro m h
          rw [hval] at h
          injection h with h2
          injection h2 with h3
          subst h3
          exact ⟨MissingRef.refNone stack n hn hl, hl⟩
        · intro m h
          rw [hval] at h
          injection h with h2
          cases h2
      | some body =>
        have hred := evalExpr_ref_some store stack n body hn hl
        have ih := evalExpr_sound store (n :: stack) body
        refine ⟨?_, ?_, ?_⟩
        · intro q hq
          rw [hred] at hq
          have h2 := ih.1 q hq
          constructor
          · intro hM
            cases hM with
            | refNone _ _ _ hnone =>
              rw [hl] at hnone
              cases hnone
            | refStep _ _ body2 _ hsome hM2 =>
              rw [hl] at hsome
              injection hsome with hb
              subst hb
              exact h2.1 hM2
          · intro hC
            cases hC with
            | refStack _ _ hmem => exact hn hmem
            | refStep _ _ body2 _ hsome hC2 =>
              rw [hl] at hsome
              injection hsome with hb
              subst hb
              exact h2.2 hC2
        · intro m h
          rw [hred] at h
          have h2 := ih.2.1 m h
          exact ⟨MissingRef.refStep stack n body hn hl h2.1, h2.2⟩
        · intro m h
          rw [hred] at h
          exact CyclicRef.refStep stack n body hn hl (ih.2.2 m h)
termination_by stack e =>
  (((store.map Prod.fst).filter (fun m => decide (m ∉ stack))).length, sizeOf e)
decreasing_by
  · apply Prod.Lex.right
    simp
    omega
  · apply Prod.Lex.right
    simp
  · apply Prod.Lex.left
    apply length_filter_strict _ _ ?imp _ n (lookupName_mem_keys store n body hl)
      (decide_eq_true hn) (decide_eq_false (not_not_intro (List.mem_cons_self n stack)))
    intro x hx
    rw [decide_eq_true_eq] at hx ⊢
    exact fun hmem => hx (List.mem_cons_of_mem n hmem)

/-- C7: Parameter Store evaluation fails with `UnresolvedParameterError`
exactly when resolution reaches a referenced name missing from the store,
and with `CyclicParameterError` exactly when resolution recurses into a
name already being resolved: success is equivalent to the absence of both
conditions, each error carries its evidence, and each condition, when it is
the only one present, forces its error. -/
theorem evaluate_error_exactly (store : List (String × PExpr)) (e : PExpr) :
    ((∃ q, evaluate store e = .ok q) ↔
      ¬ MissingRef store [] e ∧ ¬ CyclicRef store [] e) ∧
    (∀ n, evaluate store e = .error (.unresolved n) →
      MissingRef store [] e ∧ lookupName store n = none) ∧
    (∀ n, evaluate store e = .error (.cyclic n) → CyclicRef store [] e) ∧
    (MissingRef store [] e ∧ ¬ CyclicRef store [] e →
      ∃ n, evaluate store e = .error (.unresolved n) ∧
        lookupName store n = none) ∧
    (CyclicRef store [] e ∧ ¬ MissingRef store [] e →
      ∃ n, evaluate store e = .error (.cyclic n)) := by
  have hs := evalExpr_sound store [] e
  refine ⟨⟨?_, ?_⟩, fun n h => hs.2.1 n h, fun n h => hs.2.2 n h, ?_, ?_⟩
  · rintro ⟨q, hq⟩
    exact hs.1 q hq
  · rintro ⟨hM, hC⟩
    cases hE : evaluate store e with
    | ok q => exact ⟨q, rfl⟩
    | error err =>
      cases err with
      | unresolved n => exact absurd (hs.2.1 n hE).1 hM
      | cyclic n => exact absurd (hs.2.2 n hE) hC
  · rintro ⟨hM, hC⟩
    cases hE : evaluate store e with
    | ok q => exact absurd hM (hs.1 q hE).1
    | error err =>
      cases err with
      | unresolved n => exact ⟨n, rfl, (hs.2.1 n hE).2⟩
      | cyclic n => exact absurd (hs.2.2 n hE) hC
  · rintro ⟨hC, hM⟩
    cases hE : evaluate store e with
    | ok q => exact absurd hC (hs.1 q hE).2
    | error err =>
      cases err with
      | unresolved n => exact absurd (hs.2.1 n hE).1 hM
      | cyclic n => exact ⟨n, rfl⟩

/-- Concrete failing input for the unresolved condition: with the store
`{a ↦ ref b}` (name `b` missing), evaluating `ref a` fails with
`UnresolvedParameterError` naming `b`. -/
theorem evaluate_missing_example :
    evaluate [("a", PExpr.ref "b")] (PExpr.ref "a") =
      .error (.unresolved "b") := by
  rw [evaluate,
    evalExpr_ref_some [("a", PExpr.ref "b")] [] "a" (PExpr.ref "b")
      (by decide) rfl,
    evalExpr_ref_none [("a", PExpr.ref "b")] ["a"] "b" (by decide) rfl]

/-- Concrete failing input for the cyclic condition: with the store
`{a ↦ ref a}`, evaluating `ref a` fails with `CyclicParameterError`
naming `a`. -/
theorem evaluate_cycle_example :
    evaluate [("a", PExpr.ref "a")] (PExpr.ref "a") =
      .error (.cyclic "a") := by
  rw [evaluate,
    evalExpr_ref_some [("a", PExpr.ref "a")] [] "a" (PExpr.ref "a")
      (by decide) rfl,
    evalExpr_ref_stack [("a", PExpr.ref "a")] ["a"] "a" (by decide)]

end PouchCell
